import Mathlib

/-!
Verification of the core planning engine of the `planner` repository.

Shallow embedding conventions:
* chrono `NaiveDate` values are modelled as proleptic-Gregorian day numbers
  (`Int`, days since 1970-01-01); `NaiveDate` subtraction is integer
  subtraction and `Duration::weeks w` is `7 * w` days.
* Rust `f32` quantities (percentages, estimates, capacities) are modelled as
  exact rationals.
* `Uuid` identifiers are modelled as `Nat`.
* `usize` arithmetic is `Nat`; the `as usize` cast of a negative `i64` and the
  `as i64` cast back are made explicit as two's-complement wraps at `2 ^ 64`.
* A Rust panic (a failed `assert!` or a division by zero) is modelled by an
  `Option`-valued function returning `none`.
* `Utc::now()` is modelled by passing the current instant as an explicit
  `now : Int` argument.
-/

/-- Day number of a proleptic-Gregorian calendar date, counted from 1970-01-01,
the day numbering that chrono `NaiveDate` arithmetic realizes (e.g.
`date 1970 1 1 = 0`, `date 2025 1 6 = 20094`). -/
def date (y m d : Int) : Int :=
  let y2 := if m ≤ 2 then y - 1 else y
  let era := Int.fdiv y2 400
  let yoe := y2 - era * 400
  let mp := if 2 < m then m - 3 else m + 9
  let doy := Int.fdiv (153 * mp + 2) 5 + d - 1
  let doe := yoe * 365 + Int.fdiv yoe 4 - Int.fdiv yoe 100 + doy
  era * 146097 + doe - 719468

/-- The modulus of `usize` / `u64` arithmetic. -/
def USIZE : Int := 2 ^ 64

/-- Sprint boundaries for the week starting at `week_start`
(planner-core `src/utils/date_helpers.rs`, `get_sprint_boundaries`).
`(week_start - quarter_start).num_days() / 7` is i64 division (truncation
toward zero), then cast `as usize` (two's-complement wrap at `2 ^ 64`);
`sprint_index * sprint_length_weeks` cannot overflow `usize` because the
product is at most `week_index`; the `as i64` cast of that product branches at
`2 ^ 63`.  `sprint_length_weeks = 0` divides by zero in Rust: `none`. -/
def get_sprint_boundaries (week_start quarter_start : Int)
    (sprint_length_weeks : Nat) : Option (Int × Int) :=
  if sprint_length_weeks = 0 then none else
  let days_since_quarter_start := week_start - quarter_start
  let week_index : Nat := ((days_since_quarter_start.tdiv 7) % USIZE).toNat
  let sprint_index : Nat := week_index / sprint_length_weeks
  let off : Nat := sprint_index * sprint_length_weeks
  let offI : Int := if off < 2 ^ 63 then (off : Int) else (off : Int) - USIZE
  let sprint_start := quarter_start + 7 * offI
  some (sprint_start, sprint_start + 7 * (sprint_length_weeks : Int) - 1)

/-- The sprint-boundary formula exactly as the spec words it, with genuine
floor divisions on integers; written from the claim's words, to be compared
with the source-derived `get_sprint_boundaries`. -/
def sprint_boundaries_spec (week_start anchor : Int)
    (sprint_length_weeks : Nat) : Int × Int :=
  let week_index := (week_start - anchor).fdiv 7
  let sprint_index := week_index.fdiv (sprint_length_weeks : Int)
  let sprint_start := anchor + 7 * (sprint_index * (sprint_length_weeks : Int))
  (sprint_start, sprint_start + 7 * (sprint_length_weeks : Int) - 1)

/-- One week of a quarter (planner-core `date_helpers.rs`, `QuarterWeek`). -/
structure QuarterWeek where
  start_date : Int
  week_number : Nat
  sprint_number : Nat
  total_weeks : Nat
  sprint_length_weeks : Nat
deriving DecidableEq, Repr

/-- Week sequence of a quarter (planner-core `date_helpers.rs`,
`generate_quarter_weeks`).  Each iteration divides `week_index` by
`sprint_length_weeks`; with `sprint_length_weeks = 0` the first iteration
panics, so the call is `none` whenever there is at least one week. -/
def generate_quarter_weeks (quarter_start : Int) (num_weeks : Nat)
    (sprint_length_weeks : Nat) : Option (List QuarterWeek) :=
  if num_weeks ≠ 0 ∧ sprint_length_weeks = 0 then none
  else some ((List.range num_weeks).map fun (week_index : Nat) =>
    { start_date := quarter_start + 7 * (week_index : Int)
      week_number := week_index + 1
      sprint_number := week_index / sprint_length_weeks + 1
      total_weeks := num_weeks
      sprint_length_weeks := sprint_length_weeks })

/-- Team member role (planner-core `src/models/plan.rs`, `Role`). -/
inductive Role where
  | Engineering
  | Science
deriving DecidableEq, Repr

/-- Badge/status type (planner-core `src/models/status.rs`, `BadgeType`). -/
inductive BadgeType where
  | Success
  | Warning
  | Error
  | Info
  | Neutral
deriving DecidableEq, Repr

/-- Project color (planner-core `src/models/plan.rs`, `ProjectColor`). -/
inductive ProjectColor where
  | Blue
  | Green
  | Yellow
  | Orange
  | Red
  | Purple
  | Pink
  | Teal
  | Indigo
deriving DecidableEq, Repr

/-- Team member (planner-core `src/models/plan.rs`, `TeamMember`). -/
structure TeamMember where
  id : Nat
  name : String
  role : Role
  capacity : ℚ
deriving DecidableEq, Repr

/-- Roadmap project (planner-core `src/models/plan.rs`, `RoadmapProject`). -/
structure RoadmapProject where
  id : Nat
  name : String
  eng_estimate : ℚ
  sci_estimate : ℚ
  start_date : Int
  launch_date : Int
  color : ProjectColor
  notes : Option String
deriving DecidableEq, Repr

/-- Technical project (planner-core `src/models/plan.rs`, `TechnicalProject`). -/
structure TechnicalProject where
  id : Nat
  name : String
  roadmap_project_id : Option Nat
  eng_estimate : ℚ
  sci_estimate : ℚ
  start_date : Int
  expected_completion : Option Int
  notes : Option String
deriving DecidableEq, Repr

/-- Assignment of a member to a project for one week (planner-core
`src/models/plan.rs`, `Assignment`). -/
structure Assignment where
  technical_project_id : Nat
  percentage : ℚ
deriving DecidableEq, Repr

/-- Constructor `Assignment::new`: the `assert!` on `VALID_PERCENTAGE_RANGE`
(0.0..=100.0) panics outside the range, modelled as `none`. -/
def Assignment.new (technical_project_id : Nat) (percentage : ℚ) :
    Option Assignment :=
  if 0 ≤ percentage ∧ percentage ≤ 100 then
    some { technical_project_id := technical_project_id, percentage := percentage }
  else none

/-- Weekly allocation of a team member (planner-core `src/models/plan.rs`,
`Allocation`). -/
structure Allocation where
  team_member_id : Nat
  week_start_date : Int
  assignments : List Assignment
deriving DecidableEq, Repr

/-- Sum of the assignment percentages (`Allocation::total_percentage`). -/
def Allocation.total_percentage (al : Allocation) : ℚ :=
  (al.assignments.map fun a => a.percentage).sum

/-- The f32 comparison epsilon `PERCENTAGE_EPSILON = 0.01` of plan.rs. -/
def PERCENTAGE_EPSILON : ℚ := 1 / 100

/-- Comparison within epsilon (`Allocation::percentage_equals`). -/
def Allocation.percentage_equals (al : Allocation) (target : ℚ) : Bool :=
  decide (|al.total_percentage - target| < PERCENTAGE_EPSILON)

/-- Emptiness test (`Allocation::is_empty`). -/
def Allocation.is_empty (al : Allocation) : Bool :=
  al.assignments.isEmpty

/-- Validity test (`Allocation::is_valid`): empty, or the percentages sum to
100 within epsilon. -/
def Allocation.is_valid (al : Allocation) : Bool :=
  al.is_empty || al.percentage_equals 100

/-- Capacity badge classifier (planner-core `src/models/plan.rs`,
`get_capacity_status`), over exact rationals in place of f32. -/
def get_capacity_status (allocated estimated : ℚ) : BadgeType :=
  if estimated = 0 then
    if allocated = 0 then BadgeType.Neutral else BadgeType.Warning
  else
    let diff_pct := |(allocated - estimated) / estimated * 100|
    if diff_pct ≤ 5 then BadgeType.Success
    else if diff_pct ≤ 25 then BadgeType.Warning
    else BadgeType.Error

/-- Plan metadata (planner-core `src/models/plan_state.rs`, `PlanMetadata`);
timestamps are instants modelled as `Int`. -/
structure PlanMetadata where
  version : String
  created_at : Int
  modified_at : Int
deriving DecidableEq, Repr

/-- Quarter-scoped planning state (planner-core `src/models/plan_state.rs`,
`PlanState`). -/
structure PlanState where
  quarter_name : String
  quarter_start_date : Int
  num_weeks : Nat
  roadmap_projects : List RoadmapProject
  technical_projects : List TechnicalProject
  allocations : List Allocation
  metadata : PlanMetadata
deriving DecidableEq, Repr

/-- Lookup of a technical project by id, first match
(`PlanState::get_technical_project`). -/
def PlanState.get_technical_project (s : PlanState) (id : Nat) :
    Option TechnicalProject :=
  s.technical_projects.find? fun p => p.id == id

/-- The week_start_dates of the allocations containing an assignment to the
given project, in allocation order (the collection step of
`PlanState::update_technical_project_dates`). -/
def PlanState.allocation_weeks_for (s : PlanState) (technical_project_id : Nat) :
    List Int :=
  (s.allocations.filter fun al =>
    al.assignments.any fun a => a.technical_project_id == technical_project_id).map
    fun al => al.week_start_date

/-- Boolean order on day numbers used for `Vec::sort` of the week list. -/
def dateLe (a b : Int) : Bool :=
  decide (a ≤ b)

/-- Replacement of the first project with the given id by a copy whose
`start_date` and `expected_completion` are set (the `iter_mut().find()` write
step of `PlanState::update_technical_project_dates`). -/
def set_project_dates (ps : List TechnicalProject) (id : Nat)
    (start_date completion : Int) : List TechnicalProject :=
  match ps with
  | [] => []
  | p :: rest =>
    if p.id == id then
      { p with start_date := start_date, expected_completion := some completion } :: rest
    else p :: set_project_dates rest id start_date completion

/-- The date propagator `PlanState::update_technical_project_dates`
(planner-core `src/models/plan_state.rs`).  The week list is sorted
(`Vec::sort`; matching on the sorted list is the source's emptiness test,
since sorting permutes); the first/last entries feed `get_sprint_boundaries`;
if the project exists, its dates are set and `mark_modified` stamps
`modified_at := now`; with no referencing allocation the state is returned
untouched. -/
def PlanState.update_technical_project_dates (s : PlanState) (now : Int)
    (technical_project_id : Nat) (sprint_anchor_date : Int)
    (sprint_length_weeks : Nat) : Option PlanState :=
  match (s.allocation_weeks_for technical_project_id).mergeSort dateLe with
  | [] => some s
  | first_week :: rest =>
    let last_week := rest.getLastD first_week
    match get_sprint_boundaries first_week sprint_anchor_date sprint_length_weeks,
          get_sprint_boundaries last_week sprint_anchor_date sprint_length_weeks with
    | some fb, some lb =>
      if s.technical_projects.any fun p => p.id == technical_project_id then
        some { s with
          technical_projects :=
            set_project_dates s.technical_projects technical_project_id fb.1 lb.2
          metadata := { s.metadata with modified_at := now } }
      else some s
    | _, _ => none

/-- Team preferences (`src/models/preferences.rs`), with the fields the export
envelope of `src/models/plan_export.rs` constructs. -/
structure Preferences where
  team_name : String
  team_members : List TeamMember
  sprint_anchor_date : Int
  sprint_length_weeks : Nat
  default_capacity : ℚ
deriving DecidableEq, Repr

/-- Self-contained export envelope (`src/models/plan_export.rs`,
`PlanExport`). -/
structure PlanExport where
  version : String
  metadata : PlanMetadata
  team_name : String
  team_members : List TeamMember
  quarter_name : String
  quarter_start_date : Int
  num_weeks : Nat
  roadmap_projects : List RoadmapProject
  technical_projects : List TechnicalProject
  allocations : List Allocation
deriving DecidableEq, Repr

/-- Flattening `PlanExport::from_signals`. -/
def PlanExport.from_signals (prefs : Preferences) (state : PlanState) :
    PlanExport :=
  { version := state.metadata.version
    metadata := state.metadata
    team_name := prefs.team_name
    team_members := prefs.team_members
    quarter_name := state.quarter_name
    quarter_start_date := state.quarter_start_date
    num_weeks := state.num_weeks
    roadmap_projects := state.roadmap_projects
    technical_projects := state.technical_projects
    allocations := state.allocations }

/-- Splitting `PlanExport::into_signals`: sprint configuration is reset to the
fixed defaults (anchor 2024-01-01, length 2, capacity 12.0). -/
def PlanExport.into_signals (e : PlanExport) : Preferences × PlanState :=
  ({ team_name := e.team_name
     team_members := e.team_members
     sprint_anchor_date := date 2024 1 1
     sprint_length_weeks := 2
     default_capacity := 12 },
   { quarter_name := e.quarter_name
     quarter_start_date := e.quarter_start_date
     num_weeks := e.num_weeks
     roadmap_projects := e.roadmap_projects
     technical_projects := e.technical_projects
     allocations := e.allocations
     metadata := e.metadata })

/-- Model of `str::trim`: leading and trailing whitespace removed, written
with structural recursion so that concrete instances evaluate. -/
def strTrim (s : String) : String :=
  String.mk (((s.data.dropWhile Char.isWhitespace).reverse.dropWhile
    Char.isWhitespace).reverse)

/-- Validation errors (`src/models/plan_export.rs`, `ExportValidationError`). -/
inductive ExportValidationError where
  | InvalidVersion
  | EmptyTeamName
  | NoTeamMembers
  | EmptyQuarterName
  | InvalidNumWeeks
  | InvalidTeamMemberReference (id : Nat)
  | InvalidTechnicalProjectReference (id : Nat)
  | InvalidRoadmapProjectReference (id : Nat)
deriving DecidableEq, Repr

/-- Validation `PlanExport::validate`, with the source's early returns in
order; each referential-integrity loop returns the first dangling id it
meets (the assignment loop walks allocations outer, assignments inner, which
is the flattened order). -/
def PlanExport.validate (e : PlanExport) :
    Except ExportValidationError Unit :=
  if e.version = "" then Except.error ExportValidationError.InvalidVersion
  else if strTrim e.team_name = "" then Except.error ExportValidationError.EmptyTeamName
  else if e.team_members.isEmpty then Except.error ExportValidationError.NoTeamMembers
  else if strTrim e.quarter_name = "" then Except.error ExportValidationError.EmptyQuarterName
  else if e.num_weeks = 0 then Except.error ExportValidationError.InvalidNumWeeks
  else match e.allocations.find? fun al =>
      !(e.team_members.any fun m => m.id == al.team_member_id) with
  | some al =>
    Except.error (ExportValidationError.InvalidTeamMemberReference al.team_member_id)
  | none =>
    match (e.allocations.flatMap fun al => al.assignments).find? fun a =>
        !(e.technical_projects.any fun p => p.id == a.technical_project_id) with
    | some a =>
      Except.error
        (ExportValidationError.InvalidTechnicalProjectReference a.technical_project_id)
    | none =>
      match e.technical_projects.findSome? fun tp =>
          match tp.roadmap_project_id with
          | some rid =>
            if e.roadmap_projects.any fun rp => rp.id == rid then none else some rid
          | none => none with
      | some rid => Except.error (ExportValidationError.InvalidRoadmapProjectReference rid)
      | none => Except.ok ()

/-- Paintbrush selection (planner-app `components/views/paintbrush.rs`,
`SelectedProject`). -/
inductive SelectedProject where
  | noneSelected
  | technical (id : Nat)
deriving DecidableEq, Repr

/-- The target-cell test of the `retain` calls in `allocate_project_to_cell`. -/
def cellKey (team_member_id : Nat) (week_start : Int) (al : Allocation) : Bool :=
  al.team_member_id == team_member_id && al.week_start_date == week_start

/-- The cell-mutation primitive `allocate_project_to_cell` (planner-app
`components/views/paintbrush.rs`).  Clearing removes the cell's allocation and
refreshes the dates of every project that was assigned there; assigning first
validates that the project exists (`false` without mutation otherwise), then
removes the cell's allocation, pushes a fresh one carrying a single 100%
assignment, and refreshes the dates of the new project and of every distinct
replaced project.  The result is `none` when a nested call panics. -/
def allocate_project_to_cell (s : PlanState) (now : Int)
    (selected_project : SelectedProject) (team_member_id : Nat)
    (week_start sprint_anchor : Int) (sprint_length : Nat) :
    Option (PlanState × Bool) :=
  match selected_project with
  | SelectedProject.noneSelected =>
    let affected_projects :=
      (s.allocations.filter (cellKey team_member_id week_start)).flatMap
        fun al => al.assignments.map fun a => a.technical_project_id
    let s1 := { s with
      allocations := s.allocations.filter fun al =>
        !(cellKey team_member_id week_start al) }
    (affected_projects.foldlM
      (fun (st : PlanState) pid =>
        st.update_technical_project_dates now pid sprint_anchor sprint_length)
      s1).map fun st => (st, true)
  | SelectedProject.technical project_id =>
    if (s.get_technical_project project_id).isSome then
      let previous_projects :=
        (s.allocations.filter (cellKey team_member_id week_start)).flatMap
          fun al => al.assignments.map fun a => a.technical_project_id
      let s1 := { s with
        allocations := s.allocations.filter fun al =>
          !(cellKey team_member_id week_start al) }
      match Assignment.new project_id 100 with
      | some asg =>
        let s2 := { s1 with
          allocations := s1.allocations ++
            [({ team_member_id := team_member_id
                week_start_date := week_start
                assignments := [asg] } : Allocation)] }
        ((s2.update_technical_project_dates now project_id sprint_anchor
            sprint_length).bind fun (st : PlanState) =>
          (previous_projects.filter fun q => q != project_id).foldlM
            (fun (st : PlanState) pid =>
              st.update_technical_project_dates now pid sprint_anchor sprint_length)
            st).map fun st => (st, true)
      | none => none
    else some (s, false)

/-- At most one allocation per (team_member_id, week_start_date) pair. -/
def KeyUnique (s : PlanState) : Prop :=
  s.allocations.Pairwise fun a b =>
    ¬(a.team_member_id = b.team_member_id ∧ a.week_start_date = b.week_start_date)

/-- No allocation with an empty assignments list is persisted. -/
def NoEmptyAllocation (s : PlanState) : Prop :=
  ∀ al ∈ s.allocations, al.assignments ≠ []

/-- A technical project used in the concrete instantiations below. -/
def projW : TechnicalProject :=
  { id := 1, name := "API Work", roadmap_project_id := none, eng_estimate := 3,
    sci_estimate := 0, start_date := date 2025 1 6, expected_completion := none,
    notes := none }

/-- Allocation of member 7, week of 2025-01-13, fully on project 1. -/
def allocW1 : Allocation :=
  { team_member_id := 7, week_start_date := date 2025 1 13,
    assignments := [{ technical_project_id := 1, percentage := 100 }] }

/-- Allocation of member 7, week of 2025-01-27, fully on project 1. -/
def allocW2 : Allocation :=
  { team_member_id := 7, week_start_date := date 2025 1 27,
    assignments := [{ technical_project_id := 1, percentage := 100 }] }

/-- Concrete plan state: project 1 allocated in the weeks of 2025-01-13 and
2025-01-27 (the spec's date-propagation example). -/
def stateW : PlanState :=
  { quarter_name := "Q1 2025", quarter_start_date := date 2025 1 6,
    num_weeks := 13, roadmap_projects := [], technical_projects := [projW],
    allocations := [allocW1, allocW2],
    metadata := { version := "1.0", created_at := 0, modified_at := 0 } }

/-- The state `stateW` after painting project 1 onto the cell
(member 8, week 2025-01-20) at instant 99: the cell's allocation is appended
and the project's dates cover sprints 2025-01-06 .. 2025-02-02. -/
def stateWPainted : PlanState :=
  { quarter_name := "Q1 2025", quarter_start_date := date 2025 1 6,
    num_weeks := 13, roadmap_projects := [],
    technical_projects :=
      [{ projW with start_date := date 2025 1 6
                    expected_completion := some (date 2025 2 2) }],
    allocations := [allocW1, allocW2,
      { team_member_id := 8, week_start_date := date 2025 1 20,
        assignments := [{ technical_project_id := 1, percentage := 100 }] }],
    metadata := { version := "1.0", created_at := 0, modified_at := 99 } }

/-- The state `stateW` after `update_technical_project_dates` on project 1
(anchor 2025-01-06, two-week sprints) at instant 99. -/
def stateWDated : PlanState :=
  { quarter_name := "Q1 2025", quarter_start_date := date 2025 1 6,
    num_weeks := 13, roadmap_projects := [],
    technical_projects :=
      [{ projW with start_date := date 2025 1 6
                    expected_completion := some (date 2025 2 2) }],
    allocations := [allocW1, allocW2],
    metadata := { version := "1.0", created_at := 0, modified_at := 99 } }

/-- A concrete export whose single allocation references team member 2, absent
from the roster (only member 1 exists): referential-integrity failure. -/
def exportBadMember : PlanExport :=
  { version := "1.0",
    metadata := { version := "1.0", created_at := 0, modified_at := 0 },
    team_name := "Backend Team",
    team_members :=
      [{ id := 1, name := "Alice Kim", role := Role.Engineering
         capacity := 12 }],
    quarter_name := "Q1 2025", quarter_start_date := date 2025 1 6,
    num_weeks := 13, roadmap_projects := [], technical_projects := [projW],
    allocations :=
      [{ team_member_id := 2, week_start_date := date 2025 1 13
         assignments := [{ technical_project_id := 1, percentage := 100 }] }] }

/-- C5: the export round trip `into_signals (from_signals prefs state)`
preserves team_name, team_members, quarter_name, quarter_start_date,
num_weeks, roadmap_projects, technical_projects, allocations and metadata
exactly (the returned plan state IS the input state), while the returned
preferences carry the fixed default sprint configuration
(anchor 2024-01-01, length 2, default capacity 12.0) instead of the input's. -/
theorem C5_export_round_trip (prefs : Preferences) (state : PlanState) :
    PlanExport.into_signals (PlanExport.from_signals prefs state) =
      ({ team_name := prefs.team_name
         team_members := prefs.team_members
         sprint_anchor_date := date 2024 1 1
         sprint_length_weeks := 2
         default_capacity := 12 }, state) := rfl

/-- C2: `get_capacity_status` classifies exactly as specified: Neutral for
(0,0); Warning for allocation without estimate; for a positive estimate, with
diff_pct = |allocated − estimated| / estimated × 100, Success when
diff_pct ≤ 5, Warning when 5 < diff_pct ≤ 25, Error when diff_pct > 25; and
the seven concrete example points classify as listed. -/
theorem C2_get_capacity_status :
    (∀ allocated estimated : ℚ, 0 ≤ allocated → 0 ≤ estimated →
      ((estimated = 0 ∧ allocated = 0) →
        get_capacity_status allocated estimated = BadgeType.Neutral) ∧
      ((estimated = 0 ∧ 0 < allocated) →
        get_capacity_status allocated estimated = BadgeType.Warning) ∧
      (0 < estimated →
        (|allocated - estimated| / estimated * 100 ≤ 5 →
          get_capacity_status allocated estimated = BadgeType.Success) ∧
        (5 < |allocated - estimated| / estimated * 100 →
          |allocated - estimated| / estimated * 100 ≤ 25 →
          get_capacity_status allocated estimated = BadgeType.Warning) ∧
        (25 < |allocated - estimated| / estimated * 100 →
          get_capacity_status allocated estimated = BadgeType.Error))) ∧
    get_capacity_status 0 0 = BadgeType.Neutral ∧
    get_capacity_status 5 0 = BadgeType.Warning ∧
    get_capacity_status 10 10 = BadgeType.Success ∧
    get_capacity_status 10.4 10 = BadgeType.Success ∧
    get_capacity_status 10.6 10 = BadgeType.Warning ∧
    get_capacity_status 12.5 10 = BadgeType.Warning ∧
    get_capacity_status 12.6 10 = BadgeType.Error := by
  refine ⟨?_, by norm_num [get_capacity_status],
    by norm_num [get_capacity_status], by norm_num [get_capacity_status],
    by norm_num [get_capacity_status, abs_of_nonneg],
    by norm_num [get_capacity_status, abs_of_nonneg],
    by norm_num [get_capacity_status, abs_of_nonneg],
    by norm_num [get_capacity_status, abs_of_nonneg]⟩
  intro allocated estimated ha he
  by_cases hz : estimated = 0
  · subst hz
    refine ⟨fun h => ?_, fun h => ?_, fun h => absurd h (lt_irrefl 0)⟩
    · simp [get_capacity_status, h.2]
    · have : allocated ≠ 0 := ne_of_gt h.2
      simp [get_capacity_status, this]
  · have hpos : 0 < estimated := lt_of_le_of_ne he (Ne.symm hz)
    have habs : |(allocated - estimated) / estimated * 100| =
        |allocated - estimated| / estimated * 100 := by
      rw [abs_mul, abs_div, abs_of_pos hpos]
      norm_num
    refine ⟨fun h => absurd h.1 hz, fun h => absurd h.1 hz, fun _ => ?_⟩
    refine ⟨fun h5 => ?_, fun h5 h25 => ?_, fun h25 => ?_⟩
    · simp only [get_capacity_status, if_neg hz, habs]
      rw [if_pos h5]
    · simp only [get_capacity_status, if_neg hz, habs]
      rw [if_neg (not_le.mpr h5), if_pos h25]
    · simp only [get_capacity_status, if_neg hz, habs]
      rw [if_neg (not_le.mpr (lt_trans (by norm_num) h25)),
        if_neg (not_le.mpr h25)]

/-- Witness for C2 at the concrete point (12.6, 10): diff_pct = 26 > 25, so
the classifier reports Error. -/
theorem C2_get_capacity_status_witness :
    (0:ℚ) ≤ 12.6 ∧ (0:ℚ) ≤ 10 ∧ (0:ℚ) < 10 ∧
    25 < |(12.6:ℚ) - 10| / 10 * 100 ∧
    get_capacity_status 12.6 10 = BadgeType.Error :=
  ⟨by norm_num, by norm_num, by norm_num,
    by rw [abs_of_nonneg (by norm_num : (0:ℚ) ≤ 12.6 - 10)]; norm_num,
    ((C2_get_capacity_status.1 12.6 10 (by norm_num) (by norm_num)).2.2
      (by norm_num)).2.2
      (by rw [abs_of_nonneg (by norm_num : (0:ℚ) ≤ 12.6 - 10)]; norm_num)⟩

/-- C7: `total_percentage` is the sum of the assignment percentages;
`is_valid` holds exactly when the assignment list is empty or the sum is 100
within the implementation's 0.01 comparison tolerance; the 60/40 split sums
to 100 and is valid, the lone 60% assignment is invalid. -/
theorem C7_allocation_sum :
    (∀ al : Allocation,
      al.total_percentage = (al.assignments.map fun a => a.percentage).sum) ∧
    (∀ al : Allocation, al.is_valid = true ↔
      al.assignments = [] ∨
        |al.total_percentage - 100| < PERCENTAGE_EPSILON) ∧
    Allocation.total_percentage
      { team_member_id := 1, week_start_date := 0
        assignments := [{ technical_project_id := 11, percentage := 60 },
          { technical_project_id := 12, percentage := 40 }] } = 100 ∧
    Allocation.is_valid
      { team_member_id := 1, week_start_date := 0
        assignments := [{ technical_project_id := 11, percentage := 60 },
          { technical_project_id := 12, percentage := 40 }] } = true ∧
    Allocation.is_valid
      { team_member_id := 1, week_start_date := 0
        assignments := [{ technical_project_id := 11, percentage := 60 }] }
      = false := by
  refine ⟨fun al => rfl, fun al => ?_,
    by norm_num [Allocation.total_percentage],
    by
      simp [Allocation.is_valid, Allocation.is_empty,
        Allocation.percentage_equals, Allocation.total_percentage,
        PERCENTAGE_EPSILON]
      norm_num,
    by
      simp [Allocation.is_valid, Allocation.is_empty,
        Allocation.percentage_equals, Allocation.total_percentage,
        PERCENTAGE_EPSILON]
      rw [show (60:ℚ) - 100 = -(40) by norm_num, abs_neg]
      norm_num⟩
  simp [Allocation.is_valid, Allocation.is_empty, Allocation.percentage_equals,
    List.isEmpty_iff]

/-- C8 counterexample: the claim "total for every input" fails on the code:
`Assignment::new` panics at percentage 150 (its `assert!`), and both
`get_sprint_boundaries` and `generate_quarter_weeks` divide by zero at sprint
length 0. -/
theorem C8_totality_counterexample :
    Assignment.new 1 150 = none ∧
    get_sprint_boundaries 0 0 0 = none ∧
    generate_quarter_weeks 0 1 0 = none := by
  refine ⟨by rw [Assignment.new, if_neg (by norm_num)], rfl, by decide⟩

/-- C8 amended: the constructors and calendar functions return a value on the
inputs the rest of the program can produce — `Assignment::new` whenever the
percentage lies in [0, 100], and the two calendar functions whenever
sprint_length_weeks ≥ 1 (a zero num_weeks is also fine for
`generate_quarter_weeks` even at sprint length 0, as its loop body never
runs). -/
theorem C8_totality_amended :
    (∀ (id : Nat) (percentage : ℚ), 0 ≤ percentage → percentage ≤ 100 →
      (Assignment.new id percentage).isSome = true) ∧
    (∀ (week_start anchor : Int) (L : Nat), 1 ≤ L →
      (get_sprint_boundaries week_start anchor L).isSome = true) ∧
    (∀ (quarter_start : Int) (n L : Nat), 1 ≤ L →
      (generate_quarter_weeks quarter_start n L).isSome = true) ∧
    (∀ quarter_start : Int,
      (generate_quarter_weeks quarter_start 0 0).isSome = true) := by
  refine ⟨fun id p h0 h1 => ?_, fun w a L hL => ?_, fun q n L hL => ?_,
    fun q => by simp [generate_quarter_weeks]⟩
  · simp [Assignment.new, h0, h1]
  · simp only [get_sprint_boundaries]
    rw [if_neg (by omega)]
    rfl
  · simp only [generate_quarter_weeks]
    rw [if_neg (by omega)]
    rfl

/-- C4 counterexample: at sprint_length 0 with one week the claim's
"returns exactly num_weeks entries" fails — the per-week division by
sprint_length_weeks panics, so no list is produced at all. -/
theorem C4_generate_quarter_weeks_counterexample :
    generate_quarter_weeks 0 1 0 = none := by decide

/-- C4 amended: for sprint_length_weeks ≥ 1 (sprint_length 0 panics whenever
num_weeks ≥ 1), `generate_quarter_weeks` returns exactly num_weeks entries
whose week_number at position k is k+1 (hence strictly increasing 1..n),
whose start_date at position k is quarter_start + 7k days, whose
sprint_number is floor(k / L) + 1 and is non-decreasing, and whose first
entry has week_number 1 and sprint_number 1. -/
theorem C4_generate_quarter_weeks_amended (quarter_start : Int) (n L : Nat)
    (hL : 1 ≤ L) :
    ∃ ws, generate_quarter_weeks quarter_start n L = some ws ∧
      ws.length = n ∧
      (∀ i, (hi : i < ws.length) →
        (ws.get ⟨i, hi⟩).week_number = i + 1 ∧
        (ws.get ⟨i, hi⟩).start_date = quarter_start + 7 * (i : Int) ∧
        (ws.get ⟨i, hi⟩).sprint_number = i / L + 1) ∧
      (∀ i j, (hi : i < ws.length) → (hj : j < ws.length) → i < j →
        (ws.get ⟨i, hi⟩).week_number < (ws.get ⟨j, hj⟩).week_number ∧
        (ws.get ⟨i, hi⟩).sprint_number ≤ (ws.get ⟨j, hj⟩).sprint_number) ∧
      (∀ h0 : 0 < ws.length,
        (ws.get ⟨0, h0⟩).week_number = 1 ∧
        (ws.get ⟨0, h0⟩).sprint_number = 1) := by
  have hcond : ¬(n ≠ 0 ∧ L = 0) := by omega
  refine ⟨_, by rw [generate_quarter_weeks, if_neg hcond], by simp, ?_, ?_, ?_⟩
  · intro i hi
    simp [List.get_eq_getElem, List.getElem_map, List.getElem_range]
  · intro i j hi hj hij
    simp only [List.get_eq_getElem, List.getElem_map, List.getElem_range]
    exact ⟨by omega, Nat.succ_le_succ (Nat.div_le_div_right (by omega))⟩
  · intro h0
    simp [List.get_eq_getElem, List.getElem_map, List.getElem_range,
      Nat.zero_div]

/-- Witness for C4 at a standard quarter: 13 weeks from 2025-01-06 with
two-week sprints. -/
theorem C4_generate_quarter_weeks_witness :
    1 ≤ 2 ∧
    (∃ ws, generate_quarter_weeks (date 2025 1 6) 13 2 = some ws ∧
      ws.length = 13 ∧
      (∀ i, (hi : i < ws.length) →
        (ws.get ⟨i, hi⟩).week_number = i + 1 ∧
        (ws.get ⟨i, hi⟩).start_date = date 2025 1 6 + 7 * (i : Int) ∧
        (ws.get ⟨i, hi⟩).sprint_number = i / 2 + 1) ∧
      (∀ i j, (hi : i < ws.length) → (hj : j < ws.length) → i < j →
        (ws.get ⟨i, hi⟩).week_number < (ws.get ⟨j, hj⟩).week_number ∧
        (ws.get ⟨i, hi⟩).sprint_number ≤ (ws.get ⟨j, hj⟩).sprint_number) ∧
      (∀ h0 : 0 < ws.length,
        (ws.get ⟨0, h0⟩).week_number = 1 ∧
        (ws.get ⟨0, h0⟩).sprint_number = 1)) :=
  ⟨by omega, C4_generate_quarter_weeks_amended (date 2025 1 6) 13 2 (by omega)⟩

/-- C3 counterexample: for a week_start one day before the anchor the claim's
floor-division formula and the code disagree — the code truncates
`days_between / 7` toward zero (and routes negatives through an `as usize`
wrap), so week 2025-01-05 against anchor 2025-01-06 yields the sprint
(2025-01-06, 2025-01-19), while the claimed formula yields
(2024-12-23, 2025-01-05). -/
theorem C3_sprint_boundaries_counterexample :
    get_sprint_boundaries (date 2025 1 5) (date 2025 1 6) 2 =
      some (date 2025 1 6, date 2025 1 19) ∧
    sprint_boundaries_spec (date 2025 1 5) (date 2025 1 6) 2 =
      (date 2024 12 23, date 2025 1 5) ∧
    (date 2025 1 6, date 2025 1 19) ≠ (date 2024 12 23, date 2025 1 5) := by
  refine ⟨by decide, by decide, by decide⟩

/-- C3 amended: the claimed formula (week_index = floor(days/7), sprint_index
= floor(week_index/L), sprint_start = anchor + sprint_index·L weeks,
sprint_end = sprint_start + L weeks − 1 day) is what the code computes for
every week_start on or after the anchor (with the week distance inside the
i64/usize range, here generously bounded by 7·2^63 days); for week_start
earlier than the anchor the code truncates toward zero instead of flooring,
as the counterexample shows. -/
theorem C3_sprint_boundaries_amended (week_start anchor : Int) (L : Nat)
    (hL : 1 ≤ L) (h0 : anchor ≤ week_start)
    (hlt : week_start - anchor < 7 * 2 ^ 63) :
    get_sprint_boundaries week_start anchor L =
      some (sprint_boundaries_spec week_start anchor L) := by
  have hL0 : L ≠ 0 := by omega
  have hd0 : (0:Int) ≤ week_start - anchor := by omega
  obtain ⟨n, hn⟩ := Int.eq_ofNat_of_zero_le hd0
  have hn7 : (n : Int) < 7 * 2 ^ 63 := hn ▸ hlt
  have hnN : n < 7 * 2 ^ 63 := by exact_mod_cast hn7
  have hq : n / 7 < 2 ^ 63 := Nat.div_lt_of_lt_mul (by omega)
  have htdiv : (week_start - anchor).tdiv 7 = ((n / 7 : Nat) : Int) := by
    rw [hn]
    exact (Int.ofNat_tdiv n 7).symm
  have hmod : (((n / 7 : Nat) : Int)) % USIZE = ((n / 7 : Nat) : Int) := by
    apply Int.emod_eq_of_lt (by positivity)
    have : ((n / 7 : Nat) : Int) < 2 ^ 63 := by exact_mod_cast hq
    calc ((n / 7 : Nat) : Int) < 2 ^ 63 := this
    _ < USIZE := by norm_num [USIZE]
  have hoff : n / 7 / L * L < 2 ^ 63 :=
    lt_of_le_of_lt (Nat.div_mul_le_self _ _) hq
  have hfd : (week_start - anchor).fdiv 7 = ((n / 7 : Nat) : Int) := by
    rw [Int.fdiv_eq_tdiv hd0 (by norm_num)]
    exact htdiv
  have hfd2 : (((n / 7 : Nat) : Int)).fdiv (L : Int) = ((n / 7 / L : Nat) : Int) := by
    rw [Int.fdiv_eq_tdiv (by positivity) (by positivity)]
    exact (Int.ofNat_tdiv (n / 7) L).symm
  simp only [get_sprint_boundaries, sprint_boundaries_spec, if_neg hL0,
    htdiv, hmod, Int.toNat_natCast, hfd, hfd2, if_pos hoff]
  push_cast
  ring_nf

/-- Witness for C3 at week 2025-01-20, anchor 2025-01-06, length 2 (the third
concrete example of the claim, which the amended theorem instantiates). -/
theorem C3_sprint_boundaries_witness :
    1 ≤ 2 ∧ date 2025 1 6 ≤ date 2025 1 20 ∧
    date 2025 1 20 - date 2025 1 6 < 7 * 2 ^ 63 ∧
    get_sprint_boundaries (date 2025 1 20) (date 2025 1 6) 2 =
      some (sprint_boundaries_spec (date 2025 1 20) (date 2025 1 6) 2) :=
  ⟨by omega, by decide, by decide,
    C3_sprint_boundaries_amended (date 2025 1 20) (date 2025 1 6) 2
      (by omega) (by decide) (by decide)⟩

/-- C6: `PlanExport::validate` succeeds exactly when the version string is
non-empty, the team name and quarter name are non-empty after trimming, the
roster is non-empty, num_weeks is positive, every allocation's
team_member_id resolves in team_members, every assignment's
technical_project_id resolves in technical_projects, and every set
roadmap_project_id resolves in roadmap_projects; moreover (first-offender
form of the reference checks) once the five shape checks pass, the first
allocation in order whose member is missing is reported as
InvalidTeamMemberReference carrying that dangling id.  The embedded
`validate` is a pure function of the export, so it modifies nothing. -/
theorem C6_export_validate (e : PlanExport) :
    (e.validate = Except.ok () ↔
      (e.version ≠ "" ∧ strTrim e.team_name ≠ "" ∧ e.team_members ≠ [] ∧
       strTrim e.quarter_name ≠ "" ∧ 0 < e.num_weeks ∧
       (∀ al ∈ e.allocations,
         ∃ m ∈ e.team_members, m.id = al.team_member_id) ∧
       (∀ al ∈ e.allocations, ∀ a ∈ al.assignments,
         ∃ p ∈ e.technical_projects, p.id = a.technical_project_id) ∧
       (∀ tp ∈ e.technical_projects, ∀ rid, tp.roadmap_project_id = some rid →
         ∃ rp ∈ e.roadmap_projects, rp.id = rid))) ∧
    (∀ al, e.version ≠ "" → strTrim e.team_name ≠ "" → e.team_members ≠ [] →
      strTrim e.quarter_name ≠ "" → e.num_weeks ≠ 0 →
      e.allocations.find? (fun al =>
        !(e.team_members.any fun m => m.id == al.team_member_id)) = some al →
      e.validate = Except.error
        (ExportValidationError.InvalidTeamMemberReference al.team_member_id)) := by
  constructor
  · simp only [PlanExport.validate]
    by_cases h1 : e.version = ""
    · simp [h1]
    rw [if_neg h1]
    by_cases h2 : strTrim e.team_name = ""
    · simp [h1, h2]
    rw [if_neg h2]
    by_cases h3 : e.team_members.isEmpty
    · rw [if_pos h3]
      simp [h1, h2, List.isEmpty_iff.mp h3]
    rw [if_neg h3]
    have h3' : e.team_members ≠ [] := fun hh => h3 (by simp [hh])
    by_cases h4 : strTrim e.quarter_name = ""
    · simp [h1, h2, h3', h4]
    rw [if_neg h4]
    by_cases h5 : e.num_weeks = 0
    · simp [h1, h2, h3', h4, h5]
    rw [if_neg h5]
    cases hf1 : e.allocations.find? (fun al =>
        !(e.team_members.any fun m => m.id == al.team_member_id)) with
    | some al =>
      have hmem := List.mem_of_find?_eq_some hf1
      have hp := List.find?_some hf1
      rw [Bool.not_eq_true', List.any_eq_false] at hp
      constructor
      · intro hok
        exact absurd hok (by simp)
      · intro hR
        exfalso
        obtain ⟨m, hm, hid⟩ := hR.2.2.2.2.2.1 al hmem
        exact hp m hm (by simp [hid])
    | none =>
      have hm1 : ∀ al ∈ e.allocations,
          ∃ m ∈ e.team_members, m.id = al.team_member_id := by
        intro al hal
        have := List.find?_eq_none.mp hf1 al hal
        rw [Bool.not_eq_true', Bool.not_eq_false, List.any_eq_true] at this
        obtain ⟨m, hm, hid⟩ := this
        exact ⟨m, hm, by simpa using hid⟩
      cases hf2 : (e.allocations.flatMap fun al => al.assignments).find?
          (fun a => !(e.technical_projects.any fun p =>
            p.id == a.technical_project_id)) with
      | some a =>
        have hmem := List.mem_of_find?_eq_some hf2
        have hp := List.find?_some hf2
        rw [Bool.not_eq_true', List.any_eq_false] at hp
        rw [List.mem_flatMap] at hmem
        obtain ⟨al, hal, ha⟩ := hmem
        constructor
        · intro hok
          exact absurd hok (by simp)
        · intro hR
          exfalso
          obtain ⟨p, hpm, hid⟩ := hR.2.2.2.2.2.2.1 al hal a ha
          exact hp p hpm (by simp [hid])
      | none =>
        have hm2 : ∀ al ∈ e.allocations, ∀ a ∈ al.assignments,
            ∃ p ∈ e.technical_projects, p.id = a.technical_project_id := by
          intro al hal a ha
          have := List.find?_eq_none.mp hf2 a
            (List.mem_flatMap.mpr ⟨al, hal, ha⟩)
          rw [Bool.not_eq_true', Bool.not_eq_false, List.any_eq_true] at this
          obtain ⟨p, hpm, hid⟩ := this
          exact ⟨p, hpm, by simpa using hid⟩
        cases hf3 : e.technical_projects.findSome? (fun tp =>
            match tp.roadmap_project_id with
            | some rid =>
              if e.roadmap_projects.any fun rp => rp.id == rid then none
              else some rid
            | none => none) with
        | some rid =>
          obtain ⟨tp, htp, hfa⟩ := List.exists_of_findSome?_eq_some hf3
          constructor
          · intro hok
            exact absurd hok (by simp)
          · intro hR
            cases hrp : tp.roadmap_project_id with
            | none =>
              rw [hrp] at hfa
              exact absurd hfa (by simp)
            | some rid0 =>
              rw [hrp] at hfa
              replace hfa : (if (e.roadmap_projects.any fun rp =>
                  rp.id == rid0) = true then none else some rid0) = some rid := hfa
              by_cases hany : e.roadmap_projects.any fun rp => rp.id == rid0
              · rw [if_pos hany] at hfa
                exact absurd hfa (by simp)
              · rw [if_neg hany] at hfa
                injection hfa with hEq
                subst hEq
                obtain ⟨rp, hrpm, hid⟩ := hR.2.2.2.2.2.2.2 tp htp rid0 hrp
                exact absurd (List.any_eq_true.mpr ⟨rp, hrpm, by simp [hid]⟩) hany
        | none =>
          have hm3 : ∀ tp ∈ e.technical_projects, ∀ rid,
              tp.roadmap_project_id = some rid →
              ∃ rp ∈ e.roadmap_projects, rp.id = rid := by
            intro tp htp rid hrid
            have := List.findSome?_eq_none_iff.mp hf3 tp htp
            rw [hrid] at this
            replace this : (if (e.roadmap_projects.any fun rp =>
                rp.id == rid) = true then none else some rid) = none := this
            by_cases hany : e.roadmap_projects.any fun rp => rp.id == rid
            · obtain ⟨rp, hrpm, hid⟩ := List.any_eq_true.mp hany
              exact ⟨rp, hrpm, by simpa using hid⟩
            · rw [if_neg hany] at this
              exact absurd this (by simp)
          constructor
          · intro _
            exact ⟨h1, h2, h3', h4, by omega, hm1, hm2, hm3⟩
          · intro _
            rfl
  · intro al h1 h2 h3 h4 h5 hf
    simp only [PlanExport.validate]
    rw [if_neg h1, if_neg h2, if_neg (by simpa [List.isEmpty_iff] using h3),
      if_neg h4, if_neg h5, hf]

/-- Witness for C6: in `exportBadMember` the shape checks pass and the first
allocation references the absent member 2, so validation reports
InvalidTeamMemberReference 2. -/
theorem C6_export_validate_witness :
    exportBadMember.version ≠ "" ∧
    strTrim exportBadMember.team_name ≠ "" ∧
    exportBadMember.team_members ≠ [] ∧
    strTrim exportBadMember.quarter_name ≠ "" ∧
    exportBadMember.num_weeks ≠ 0 ∧
    exportBadMember.allocations.find? (fun al =>
      !(exportBadMember.team_members.any fun m =>
        m.id == al.team_member_id)) =
      some { team_member_id := 2, week_start_date := date 2025 1 13
             assignments := [{ technical_project_id := 1, percentage := 100 }] } ∧
    exportBadMember.validate = Except.error
      (ExportValidationError.InvalidTeamMemberReference 2) :=
  ⟨by decide, by decide, by decide, by decide, by decide, by decide,
    (C6_export_validate exportBadMember).2
      { team_member_id := 2, week_start_date := date 2025 1 13
        assignments := [{ technical_project_id := 1, percentage := 100 }] }
      (by decide) (by decide) (by decide) (by decide) (by decide) (by decide)⟩

/-- Transitivity of the week order used by `Vec::sort`. -/
theorem planner_dateLe_trans (a b c : Int) (h1 : dateLe a b = true)
    (h2 : dateLe b c = true) : dateLe a c = true := by
  simp only [dateLe, decide_eq_true_eq] at h1 h2 ⊢
  omega

/-- Totality of the week order used by `Vec::sort`. -/
theorem planner_dateLe_total (a b : Int) : (dateLe a b || dateLe b a) = true := by
  simp only [dateLe, Bool.or_eq_true, decide_eq_true_eq]
  omega

/-- The last element picked by `getLastD` is an element of the cons list. -/
theorem planner_getLastD_mem (ws : List Int) (w : Int) :
    ws.getLastD w ∈ w :: ws := by
  induction ws generalizing w with
  | nil => simp
  | cons x xs ih =>
    rw [List.getLastD_cons]
    rcases List.mem_cons.mp (ih x) with h | h
    · rw [h]
      exact List.mem_cons.mpr (Or.inr (List.mem_cons.mpr (Or.inl rfl)))
    · exact List.mem_cons.mpr (Or.inr (List.mem_cons.mpr (Or.inr h)))

/-- In a sorted week list the head is a lower bound. -/
theorem planner_sorted_head_le (w : Int) (ws : List Int)
    (hp : List.Pairwise (fun a b => dateLe a b = true) (w :: ws)) :
    ∀ b ∈ w :: ws, w ≤ b := by
  intro b hb
  rcases List.mem_cons.mp hb with h | h
  · exact le_of_eq h.symm
  · have := (List.pairwise_cons.mp hp).1 b h
    simpa [dateLe] using this

/-- In a sorted week list the `getLastD` element is an upper bound. -/
theorem planner_sorted_le_getLastD (w : Int) (ws : List Int)
    (hp : List.Pairwise (fun a b => dateLe a b = true) (w :: ws)) :
    ∀ b ∈ w :: ws, b ≤ ws.getLastD w := by
  induction ws generalizing w with
  | nil =>
    intro b hb
    simp only [List.mem_singleton] at hb
    simp [hb]
  | cons x xs ih =>
    intro b hb
    rw [List.getLastD_cons]
    rcases List.mem_cons.mp hb with h | h
    · subst h
      have hx : dateLe b x = true := (List.pairwise_cons.mp hp).1 x (by simp)
      have hxl := ih x (List.pairwise_cons.mp hp).2 x (by simp)
      simp only [dateLe, decide_eq_true_eq] at hx
      omega
    · exact ih x (List.pairwise_cons.mp hp).2 b h

/-- Effect of `set_project_dates` on the first matching project under the
first-match lookup used by `get_technical_project`. -/
theorem planner_find_set_project_dates (ps : List TechnicalProject)
    (pid : Nat) (a b : Int) (hany : (ps.any fun p => p.id == pid) = true) :
    ∃ p, ps.find? (fun p => p.id == pid) = some p ∧
      (set_project_dates ps pid a b).find? (fun p => p.id == pid) =
        some { p with start_date := a, expected_completion := some b } := by
  induction ps with
  | nil => simp at hany
  | cons p rest ih =>
    by_cases hp : (p.id == pid) = true
    · refine ⟨p, List.find?_cons_of_pos _ hp, ?_⟩
      rw [set_project_dates, if_pos hp]
      exact List.find?_cons_of_pos _ hp
    · have hany' : (rest.any fun p => p.id == pid) = true := by
        rcases List.any_eq_true.mp hany with ⟨q, hq, hqid⟩
        rcases List.mem_cons.mp hq with h | h
        · exact absurd (h ▸ hqid) hp
        · exact List.any_eq_true.mpr ⟨q, h, hqid⟩
      obtain ⟨q, hfind, hfind2⟩ := ih hany'
      refine ⟨q, ?_, ?_⟩
      · have hstep : List.find? (fun r => r.id == pid) (p :: rest) =
            List.find? (fun r => r.id == pid) rest :=
          List.find?_cons_of_neg _ hp
        rw [hstep]
        exact hfind
      · rw [set_project_dates, if_neg hp]
        have hstep : List.find? (fun r => r.id == pid)
            (p :: set_project_dates rest pid a b) =
            List.find? (fun r => r.id == pid) (set_project_dates rest pid a b) :=
          List.find?_cons_of_neg _ hp
        rw [hstep]
        exact hfind2

/-- `set_project_dates` relates the project lists entrywise: ids and all
fields other than the dates are preserved, and projects with a different id
are untouched. -/
theorem planner_forall2_set_project_dates (ps : List TechnicalProject)
    (pid : Nat) (a b : Int) :
    List.Forall₂ (fun p q =>
      q.id = p.id ∧ q.name = p.name ∧
      q.roadmap_project_id = p.roadmap_project_id ∧
      q.eng_estimate = p.eng_estimate ∧ q.sci_estimate = p.sci_estimate ∧
      q.notes = p.notes ∧ (p.id ≠ pid → q = p))
      ps (set_project_dates ps pid a b) := by
  induction ps with
  | nil => exact List.Forall₂.nil
  | cons p rest ih =>
    rw [set_project_dates]
    by_cases hp : (p.id == pid) = true
    · rw [if_pos hp]
      exact List.Forall₂.cons
        ⟨rfl, rfl, rfl, rfl, rfl, rfl,
          fun hne => absurd (by simpa using hp) hne⟩
        (List.forall₂_same.mpr fun q _ =>
          ⟨rfl, rfl, rfl, rfl, rfl, rfl, fun _ => rfl⟩)
    · rw [if_neg hp]
      exact List.Forall₂.cons ⟨rfl, rfl, rfl, rfl, rfl, rfl, fun _ => rfl⟩ ih

/-- The date propagator never touches the allocation list. -/
theorem planner_update_allocations {s s' : PlanState} {now : Int} {pid : Nat}
    {A : Int} {L : Nat}
    (h : s.update_technical_project_dates now pid A L = some s') :
    s'.allocations = s.allocations := by
  simp only [PlanState.update_technical_project_dates] at h
  split at h
  · injection h with h'
    rw [← h']
  · split at h
    · split at h <;> (injection h with h'; rw [← h'])
    · cases h

/-- The date propagator never touches the project ids either (needed to chain
`allocate_project_to_cell`'s nested date refreshes). -/
theorem planner_foldlM_update_allocations (pids : List Nat) {s s' : PlanState}
    {now : Int} {A : Int} {L : Nat}
    (h : pids.foldlM (fun (st : PlanState) pid =>
      st.update_technical_project_dates now pid A L) s = some s') :
    s'.allocations = s.allocations := by
  induction pids generalizing s with
  | nil =>
    rw [List.foldlM_nil] at h
    injection h with h'
    rw [← h']
  | cons pid rest ih =>
    rw [List.foldlM_cons] at h
    rcases Option.bind_eq_some.mp h with ⟨st1, hst1, hrest⟩
    rw [ih hrest, planner_update_allocations hst1]

/-- The percentage 100 passes the `Assignment::new` range assert. -/
theorem planner_assignment_new_100 (pid : Nat) :
    Assignment.new pid 100 =
      some { technical_project_id := pid, percentage := 100 } := by
  rw [Assignment.new, if_pos (by norm_num)]

/-- C1: if no allocation references the project, the propagator leaves the
state (hence the project's start_date and expected_completion) unchanged;
if some allocation references it and the project exists, the project's
start_date becomes the sprint_start of `get_sprint_boundaries` at the
earliest referencing week and its expected_completion the Some of the
sprint_end at the latest referencing week. -/
theorem C1_update_technical_project_dates (s : PlanState) (now : Int)
    (P : Nat) (A : Int) (L : Nat) :
    (s.allocation_weeks_for P = [] →
      s.update_technical_project_dates now P A L = some s) ∧
    (∀ m M fb lb,
      m ∈ s.allocation_weeks_for P →
      (∀ b ∈ s.allocation_weeks_for P, m ≤ b) →
      M ∈ s.allocation_weeks_for P →
      (∀ b ∈ s.allocation_weeks_for P, b ≤ M) →
      get_sprint_boundaries m A L = some fb →
      get_sprint_boundaries M A L = some lb →
      (s.technical_projects.any fun p => p.id == P) = true →
      ∃ s' p, s.update_technical_project_dates now P A L = some s' ∧
        s'.get_technical_project P = some p ∧
        p.start_date = fb.1 ∧ p.expected_completion = some lb.2) := by
  constructor
  · intro hempty
    simp only [PlanState.update_technical_project_dates, hempty,
      List.mergeSort_nil]
  · intro m M fb lb hm hmle hM hMle hb1 hb2 hany
    have hperm := List.mergeSort_perm (s.allocation_weeks_for P) dateLe
    have hsorted := @List.sorted_mergeSort Int dateLe planner_dateLe_trans
      planner_dateLe_total (s.allocation_weeks_for P)
    cases hms : (s.allocation_weeks_for P).mergeSort dateLe with
    | nil =>
      exfalso
      rw [hms] at hperm
      have hnil : s.allocation_weeks_for P = [] := hperm.symm.eq_nil
      rw [hnil] at hm
      exact absurd hm (List.not_mem_nil m)
    | cons w ws =>
      rw [hms] at hperm hsorted
      have hwmem : w ∈ s.allocation_weeks_for P := hperm.mem_iff.mp (by simp)
      have hmmem : m ∈ w :: ws := hperm.mem_iff.mpr hm
      have hw_eq : w = m :=
        le_antisymm (planner_sorted_head_le w ws hsorted m hmmem) (hmle w hwmem)
      subst hw_eq
      have hlmem : ws.getLastD w ∈ s.allocation_weeks_for P :=
        hperm.mem_iff.mp (planner_getLastD_mem ws w)
      have hMmem : M ∈ w :: ws := hperm.mem_iff.mpr hM
      have hl_eq : ws.getLastD w = M :=
        le_antisymm (hMle _ hlmem)
          (planner_sorted_le_getLastD w ws hsorted M hMmem)
      obtain ⟨p0, hfind, hfind2⟩ :=
        planner_find_set_project_dates s.technical_projects P fb.1 lb.2 hany
      refine ⟨{ s with
          technical_projects := set_project_dates s.technical_projects P fb.1 lb.2
          metadata := { s.metadata with modified_at := now } },
        { p0 with start_date := fb.1, expected_completion := some lb.2 },
        ?_, ?_, rfl, rfl⟩
      · simp only [PlanState.update_technical_project_dates, hms, hl_eq, hb1,
          hb2, if_pos hany]
      · simp only [PlanState.get_technical_project]
        exact hfind2

/-- Witness for C1 on `stateW`: allocations at 2025-01-13 and 2025-01-27,
anchor 2025-01-06, two-week sprints give start 2025-01-06 and completion
2025-02-02. -/
theorem C1_update_technical_project_dates_witness :
    date 2025 1 13 ∈ stateW.allocation_weeks_for 1 ∧
    (∀ b ∈ stateW.allocation_weeks_for 1, date 2025 1 13 ≤ b) ∧
    date 2025 1 27 ∈ stateW.allocation_weeks_for 1 ∧
    (∀ b ∈ stateW.allocation_weeks_for 1, b ≤ date 2025 1 27) ∧
    get_sprint_boundaries (date 2025 1 13) (date 2025 1 6) 2 =
      some (date 2025 1 6, date 2025 1 19) ∧
    get_sprint_boundaries (date 2025 1 27) (date 2025 1 6) 2 =
      some (date 2025 1 20, date 2025 2 2) ∧
    (stateW.technical_projects.any fun p => p.id == 1) = true ∧
    (∃ s' p,
      stateW.update_technical_project_dates 99 1 (date 2025 1 6) 2 = some s' ∧
      s'.get_technical_project 1 = some p ∧
      p.start_date = (date 2025 1 6, date 2025 1 19).1 ∧
      p.expected_completion = some (date 2025 1 20, date 2025 2 2).2) :=
  ⟨by decide, by decide, by decide, by decide, by decide, by decide, by decide,
    (C1_update_technical_project_dates stateW 99 1 (date 2025 1 6) 2).2
      (date 2025 1 13) (date 2025 1 27) (date 2025 1 6, date 2025 1 19)
      (date 2025 1 20, date 2025 2 2) (by decide) (by decide) (by decide)
      (by decide) (by decide) (by decide) (by decide)⟩

/-- C10 (frame): a successful `update_technical_project_dates` call changes at
most the targeted project's start_date and expected_completion and the
metadata's modified_at; the quarter fields, roadmap projects, allocations,
creation timestamp, metadata version, the other technical projects, and the
target's own id, name, link, estimates and notes are unchanged; and when no
allocation references the project or the project id is absent, the whole
state — modified_at included — is returned exactly as it was. -/
theorem C10_update_dates_frame (s : PlanState) (now : Int) (P : Nat)
    (A : Int) (L : Nat) (s' : PlanState)
    (h : s.update_technical_project_dates now P A L = some s') :
    s'.quarter_name = s.quarter_name ∧
    s'.quarter_start_date = s.quarter_start_date ∧
    s'.num_weeks = s.num_weeks ∧
    s'.roadmap_projects = s.roadmap_projects ∧
    s'.allocations = s.allocations ∧
    s'.metadata.created_at = s.metadata.created_at ∧
    s'.metadata.version = s.metadata.version ∧
    List.Forall₂ (fun p q =>
      q.id = p.id ∧ q.name = p.name ∧
      q.roadmap_project_id = p.roadmap_project_id ∧
      q.eng_estimate = p.eng_estimate ∧ q.sci_estimate = p.sci_estimate ∧
      q.notes = p.notes ∧ (p.id ≠ P → q = p))
      s.technical_projects s'.technical_projects ∧
    ((s.allocation_weeks_for P = [] ∨ ∀ p ∈ s.technical_projects, p.id ≠ P) →
      s' = s) := by
  have hperm := List.mergeSort_perm (s.allocation_weeks_for P) dateLe
  simp only [PlanState.update_technical_project_dates] at h
  split at h
  · injection h with h'
    subst h'
    exact ⟨rfl, rfl, rfl, rfl, rfl, rfl, rfl,
      List.forall₂_same.mpr fun p _ =>
        ⟨rfl, rfl, rfl, rfl, rfl, rfl, fun _ => rfl⟩,
      fun _ => rfl⟩
  · rename_i w ws heq
    split at h
    · rename_i fb lb hb1 hb2
      by_cases hany : (s.technical_projects.any fun p => p.id == P) = true
      · rw [if_pos hany] at h
        injection h with h'
        subst h'
        refine ⟨rfl, rfl, rfl, rfl, rfl, rfl, rfl,
          planner_forall2_set_project_dates s.technical_projects P fb.1 lb.2,
          ?_⟩
        rintro (hc | hc)
        · exfalso
          rw [heq, hc] at hperm
          have := hperm.eq_nil
          simp at this
        · exfalso
          rcases List.any_eq_true.mp hany with ⟨p, hp, hid⟩
          exact hc p hp (by simpa using hid)
      · rw [if_neg hany] at h
        injection h with h'
        subst h'
        exact ⟨rfl, rfl, rfl, rfl, rfl, rfl, rfl,
          List.forall₂_same.mpr fun p _ =>
            ⟨rfl, rfl, rfl, rfl, rfl, rfl, fun _ => rfl⟩,
          fun _ => rfl⟩
    · cases h

/-- Witness for C10 on `stateW`, where the update really fires: the state
`stateWDated` returned at instant 99 agrees with `stateW` on everything but
project 1's dates and the modified_at stamp. -/
theorem C10_update_dates_frame_witness :
    stateWDated.quarter_name = stateW.quarter_name ∧
    stateWDated.quarter_start_date = stateW.quarter_start_date ∧
    stateWDated.num_weeks = stateW.num_weeks ∧
    stateWDated.roadmap_projects = stateW.roadmap_projects ∧
    stateWDated.allocations = stateW.allocations ∧
    stateWDated.metadata.created_at = stateW.metadata.created_at ∧
    stateWDated.metadata.version = stateW.metadata.version ∧
    List.Forall₂ (fun p q =>
      q.id = p.id ∧ q.name = p.name ∧
      q.roadmap_project_id = p.roadmap_project_id ∧
      q.eng_estimate = p.eng_estimate ∧ q.sci_estimate = p.sci_estimate ∧
      q.notes = p.notes ∧ (p.id ≠ 1 → q = p))
      stateW.technical_projects stateWDated.technical_projects ∧
    ((stateW.allocation_weeks_for 1 = [] ∨
        ∀ p ∈ stateW.technical_projects, p.id ≠ 1) →
      stateWDated = stateW) :=
  C10_update_dates_frame stateW 99 1 (date 2025 1 6) 2 stateWDated (by
    have hms : (stateW.allocation_weeks_for 1).mergeSort dateLe =
        [date 2025 1 13, date 2025 1 27] :=
      List.mergeSort_of_sorted (by decide)
    simp only [PlanState.update_technical_project_dates, hms]
    decide)

/-- C9: a successful `allocate_project_to_cell` call removes any allocation at
the (member, week) key and, exactly when a project is selected (and after the
existence check succeeds), appends one fresh allocation at that key carrying
a single 100% assignment; consequently key uniqueness and the absence of
persisted empty allocations are both preserved, and a failed validation
(selected project absent) leaves the state untouched. -/
theorem C9_allocate_cell_invariants (s : PlanState) (now : Int)
    (sel : SelectedProject) (mid : Nat) (week anchor : Int) (L : Nat)
    (s' : PlanState) (b : Bool)
    (hKU : KeyUnique s) (hNE : NoEmptyAllocation s)
    (h : allocate_project_to_cell s now sel mid week anchor L = some (s', b)) :
    (b = false → s' = s) ∧
    (b = true → s'.allocations =
      s.allocations.filter (fun al => !(cellKey mid week al)) ++
        (match sel with
         | SelectedProject.noneSelected => []
         | SelectedProject.technical pid =>
           [({ team_member_id := mid, week_start_date := week,
               assignments :=
                 [{ technical_project_id := pid, percentage := 100 }] } :
             Allocation)])) ∧
    KeyUnique s' ∧ NoEmptyAllocation s' := by
  cases sel with
  | noneSelected =>
    simp only [allocate_project_to_cell] at h
    rw [Option.map_eq_some'] at h
    obtain ⟨st, hfold, hpair⟩ := h
    injection hpair with h1 h2
    subst h2
    have hs' : s' = st := h1.symm
    subst hs'
    have halloc : s'.allocations =
        s.allocations.filter (fun al => !(cellKey mid week al)) :=
      planner_foldlM_update_allocations _ hfold
    refine ⟨?_, ?_, ?_, ?_⟩
    · intro hb
      simp at hb
    · intro _
      rw [halloc, List.append_nil]
    · show List.Pairwise _ s'.allocations
      rw [halloc]
      exact List.Pairwise.filter _ hKU
    · intro al hal
      rw [halloc] at hal
      exact hNE al (List.mem_filter.mp hal).1
  | technical pid =>
    simp only [allocate_project_to_cell] at h
    by_cases hex : (s.get_technical_project pid).isSome
    · rw [if_pos hex, planner_assignment_new_100] at h
      rw [Option.map_eq_some'] at h
      obtain ⟨st, hbind, hpair⟩ := h
      injection hpair with h1 h2
      subst h2
      have hs' : s' = st := h1.symm
      subst hs'
      rcases Option.bind_eq_some.mp hbind with ⟨st1, hupd, hfold⟩
      have halloc : s'.allocations =
          s.allocations.filter (fun al => !(cellKey mid week al)) ++
            [({ team_member_id := mid, week_start_date := week,
                assignments :=
                  [{ technical_project_id := pid, percentage := 100 }] } :
              Allocation)] := by
        rw [planner_foldlM_update_allocations _ hfold,
          planner_update_allocations hupd]
      refine ⟨?_, ?_, ?_, ?_⟩
      · intro hb
        simp at hb
      · intro _
        exact halloc
      · show List.Pairwise _ s'.allocations
        rw [halloc]
        rw [List.pairwise_append]
        refine ⟨List.Pairwise.filter _ hKU, List.pairwise_singleton _ _, ?_⟩
        intro x hx y hy
        rw [List.mem_singleton] at hy
        subst hy
        have hxk := (List.mem_filter.mp hx).2
        rw [Bool.not_eq_true', cellKey, Bool.and_eq_false_iff] at hxk
        rintro ⟨he1, he2⟩
        rcases hxk with hk | hk
        · exact absurd (by simpa using he1) (by simpa using hk)
        · exact absurd (by simpa using he2) (by simpa using hk)
      · intro al hal
        rw [halloc] at hal
        rcases List.mem_append.mp hal with hal | hal
        · exact hNE al (List.mem_filter.mp hal).1
        · rw [List.mem_singleton] at hal
          subst hal
          simp
    · rw [if_neg hex] at h
      injection h with h'
      injection h' with h1 h2
      have hs' : s' = s := h1.symm
      subst hs'
      subst h2
      refine ⟨?_, ?_, hKU, hNE⟩
      · intro _
        rfl
      · intro hb
        simp at hb

/-- Witness for C9: clearing an unoccupied cell of `stateW` succeeds, leaves
the allocation list equal to the filtered list, and preserves both
invariants. -/
theorem C9_allocate_cell_invariants_witness :
    KeyUnique stateW ∧ NoEmptyAllocation stateW ∧
    ((true = false → stateW = stateW) ∧
      (true = true → stateW.allocations =
        stateW.allocations.filter
          (fun al => !(cellKey 8 (date 2025 1 20) al)) ++
          (match SelectedProject.noneSelected with
           | SelectedProject.noneSelected => ([] : List Allocation)
           | SelectedProject.technical pid =>
             [({ team_member_id := 8, week_start_date := date 2025 1 20,
                 assignments :=
                   [{ technical_project_id := pid, percentage := 100 }] } :
               Allocation)])) ∧
      KeyUnique stateW ∧ NoEmptyAllocation stateW) :=
  ⟨by unfold KeyUnique; decide, by unfold NoEmptyAllocation; decide,
    C9_allocate_cell_invariants stateW 99 SelectedProject.noneSelected 8
      (date 2025 1 20) (date 2025 1 6) 2 stateW true
      (by unfold KeyUnique; decide) (by unfold NoEmptyAllocation; decide)
      (by decide)⟩

/-- Witness for C8 at standard inputs: a 50% assignment is constructed, and
both calendar functions succeed with two-week sprints. -/
theorem C8_totality_witness :
    (0:ℚ) ≤ 50 ∧ (50:ℚ) ≤ 100 ∧ (Assignment.new 3 50).isSome = true ∧
    1 ≤ 2 ∧
    (get_sprint_boundaries (date 2025 1 13) (date 2025 1 6) 2).isSome = true ∧
    (generate_quarter_weeks (date 2025 1 6) 13 2).isSome = true :=
  ⟨by norm_num, by norm_num, C8_totality_amended.1 3 50 (by norm_num) (by norm_num),
    by omega, C8_totality_amended.2.1 (date 2025 1 13) (date 2025 1 6) 2 (by omega),
    C8_totality_amended.2.2.1 (date 2025 1 6) 13 2 (by omega)⟩
